import Mathlib

set_option maxRecDepth 8000

/-!
Verification of the settings versioning and persistence engine of
`brother_ql_web` (label designer front end): the localStorage snapshot
store with bounded undo history (`storage.js`), the FNV-1a content hash
and IndexedDB image cache, the flatten/diff utilities, the repository
load path (`repository.js`), and the per-line font settings resolver
(`font-settings.js`).

The JavaScript is shallowly embedded: a snapshot is represented by its
canonical serialized string (the code compares snapshots only through
`JSON.stringify`), localStorage by an explicit record, the IndexedDB
image table by an association list, and the per-line style array by a
list of slot records.  Machine integers are `Nat` with explicit
`% 2 ^ 64` where the source masks to 64 bits.
-/

namespace LabelDesigner

/-- A settings snapshot, represented by its canonical serialized form
(the source compares snapshots only via `JSON.stringify`, and stores
them in serialized form in localStorage). -/
abbrev Snap := String

/-- `MAX_HISTORY = 40` from `storage.js`. -/
def MAX_HISTORY : Nat := 40

/-- The localStorage state used by `storage.js`: the current settings
under `LS_KEY` and the history list under `LS_HISTORY_KEY` (kept here
in parsed form; the source parses it on every access). -/
structure LDStore where
  current : Option Snap
  history : List Snap
deriving DecidableEq

/-- The store before anything was saved: no current settings, empty
history (`JSON.parse(localStorage.getItem(LS_HISTORY_KEY)) || []`). -/
def emptyStore : LDStore := ⟨none, []⟩

/-- Embedding of the storage effect of `saveAllSettingsToLocalStorage`
(`storage.js`): the DOM-collected `data` arrives as its canonical
serialization `this_settings`.  The function unconditionally writes it
under `LS_KEY`; then, if the history is empty or its last entry
serializes differently, it pushes the snapshot and trims the history to
the last `MAX_HISTORY` entries with `slice`. -/
def saveAllSettingsToLocalStorage (s : LDStore) (this_settings : Snap) : LDStore :=
  let history := s.history
  if history = [] ∨ history.getLast? ≠ some this_settings then
    let pushed := history ++ [this_settings]
    let trimmed := if MAX_HISTORY < pushed.length
      then pushed.drop (pushed.length - MAX_HISTORY) else pushed
    { current := some this_settings, history := trimmed }
  else
    { current := some this_settings, history := history }

/-- Embedding of `undoSettings` (`storage.js`): a no-op when the history
has fewer than two entries; otherwise it pops the last entry, writes the
new last entry under `LS_KEY`, and persists the shortened history. -/
def undoSettings (s : LDStore) : LDStore :=
  if s.history.length < 2 then s
  else
    let h := s.history.dropLast
    { current := h.getLast?, history := h }

/-- The undo-step count displayed by `updateUndoButton` (`storage.js`):
`Math.max(0, history.length - 1)`, which is `Nat` subtraction here. -/
def updateUndoButton (s : LDStore) : Nat :=
  s.history.length - 1

/-- Embedding of the storage effect of `repoLoad` (`repository.js`): the
snapshot assembled from the repository response is written directly
under `LS_KEY`; the history key is not touched and `updateUndoButton`
is not called. -/
def repoLoad (s : LDStore) (snap : Snap) : LDStore :=
  { current := some snap, history := s.history }

/-- Adjacent entries of the history are pairwise distinct (no-op edits
do not grow history). -/
def adjacentDistinct : List Snap → Bool
  | [] => true
  | [_] => true
  | a :: b :: rest => a ≠ b && adjacentDistinct (b :: rest)

/-- The history invariant of the spec: adjacent history entries are
never equal, and whenever the history is non-empty its last entry
equals the current persisted snapshot. -/
def storeInv (s : LDStore) : Bool :=
  adjacentDistinct s.history &&
    (s.history = [] || s.current = s.history.getLast?)

/-- Folding a list of save calls over a store. -/
def applySaves (s : LDStore) (l : List Snap) : LDStore :=
  l.foldl saveAllSettingsToLocalStorage s

/-- A chain condition for save sequences: each snapshot differs from the
snapshot that is at the end of the history when it is saved. -/
def freshChain : Option Snap → List Snap → Prop
  | _, [] => True
  | prev, d :: rest => prev ≠ some d ∧ freshChain (some d) rest

/-- Concrete snapshots used in scenario theorems (standing for the
serialized forms of the distinct settings objects of the spec scenario,
such as the serializations of `\x7ba:1\x7d`, `\x7ba:2\x7d`, `\x7ba:3\x7d`). -/
def snapA : Snap := "a1"

/-- Second concrete snapshot, distinct from `snapA`. -/
def snapB : Snap := "a2"

/-- Third concrete snapshot, distinct from `snapA` and `snapB`. -/
def snapC : Snap := "a3"

/-! ## Content hash and IndexedDB image cache (`storage.js`) -/

/-- `FNV_OFFSET_BASIS = 14695981039346656037n` from `generateHash`. -/
def FNV_OFFSET_BASIS : Nat := 14695981039346656037

/-- `FNV_PRIME = 1099511628211n` from `generateHash`. -/
def FNV_PRIME : Nat := 1099511628211

/-- The UTF-16 code units of a character, as read by
`string.charCodeAt(i)` in JavaScript (characters beyond the basic
multilingual plane are iterated as a surrogate pair). -/
def utf16Units (c : Char) : List Nat :=
  let n := c.toNat
  if n < 65536 then [n]
  else [55296 + (n - 65536) / 1024, 56320 + (n - 65536) % 1024]

/-- The sequence of UTF-16 code units of a string: the values
`string.charCodeAt(0) .. string.charCodeAt(string.length - 1)`. -/
def charCodes (s : String) : List Nat :=
  (s.data.map utf16Units).flatten

/-- One digit of `BigInt.prototype.toString(36)`: `0`-`9` then `a`-`z`. -/
def base36Digit (d : Nat) : Char :=
  if d < 10 then Char.ofNat (48 + d) else Char.ofNat (87 + d)

/-- Digit-extraction loop of `toString(36)`; the fuel is structural and
64 steps suffice for any 64-bit value. -/
def natToBase36Aux : Nat → Nat → List Char → List Char
  | 0, _, acc => acc
  | fuel + 1, n, acc =>
    if n = 0 then acc else natToBase36Aux fuel (n / 36) (base36Digit (n % 36) :: acc)

/-- `hash.toString(36)`: base-36 positional encoding, `"0"` for zero. -/
def natToBase36 (n : Nat) : String :=
  if n = 0 then "0" else String.mk (natToBase36Aux 64 n [])

/-- One iteration of the `generateHash` loop (`storage.js`):
`hash ^= BigInt(string.charCodeAt(i)); hash *= FNV_PRIME;
hash &= (1n << 64n) - 1n`.  The running hash is below `2 ^ 64` on entry
and the code unit is below `2 ^ 16`, so masking once after the multiply
is the source's `&=` exactly. -/
def fnvStep (hash : Nat) (code : Nat) : Nat :=
  ((hash ^^^ code) * FNV_PRIME) % 2 ^ 64

/-- Embedding of `generateHash` (`storage.js`): FNV-1a over the UTF-16
code units of the string, encoded in base 36. -/
def generateHash (s : String) : String :=
  natToBase36 ((charCodes s).foldl fnvStep FNV_OFFSET_BASIS)

/-- The rolling hash exactly as the specification words it: an
accumulator seeded with a fixed non-zero basis is, for each input unit,
xored with that unit, multiplied by a fixed odd prime, and masked to 64
bits.  Kept as a second definition so that `generateHash` can be proved
to refine the spec's description. -/
def specRoll (basis prime : Nat) (units : List Nat) : Nat :=
  units.foldl (fun h u => ((h ^^^ u) * prime) % 2 ^ 64) basis

/-- The spec-side hash: `specRoll` over the code units, base-36 encoded. -/
def specHash (s : String) : String :=
  natToBase36 (specRoll FNV_OFFSET_BASIS FNV_PRIME (charCodes s))

/-- Fast modular exponentiation (square and multiply), used to certify
the primality of `FNV_PRIME` by a Lucas certificate.  The fuel is
structural; `powMod fuel a b n = a ^ b % n` whenever `b < 2 ^ fuel`. -/
def powMod : Nat → Nat → Nat → Nat → Nat
  | 0, _, _, n => 1 % n
  | fuel + 1, a, b, n =>
    if b = 0 then 1 % n
    else
      let h := powMod fuel a (b / 2) n
      let sq := h * h % n
      if b % 2 = 1 then sq * (a % n) % n else sq

/-- An asset record of the IndexedDB `images` store:
`\x7b mime, b64 \x7d` stored under the hash key. -/
structure ImageRecord where
  mime : String
  b64 : String
deriving DecidableEq

/-- The `images` object store, keyed by content hash. -/
abbrev ImageDB := List (String × ImageRecord)

/-- Embedding of `_saveImageToDB` (`storage.js`): `store.add` is an
insert-only write; when the key already exists IndexedDB raises
`ConstraintError`, which the code converts into a resolved `false`
(already present), never overwriting the stored record.  The transient
unavailability path (`.catch(() => null)`) is outside this pure model. -/
def _saveImageToDB (db : ImageDB) (id : String) (mime b64 : String) : ImageDB × Bool :=
  if db.any (fun e => e.1 == id) then (db, false)
  else (db ++ [(id, ImageRecord.mk mime b64)], true)

/-- Embedding of `_getImageFromDB` (`storage.js`): `store.get`, with
`undefined` (here `none`) for a missing key. -/
def _getImageFromDB (db : ImageDB) (id : String) : Option ImageRecord :=
  (db.find? (fun e => e.1 == id)).map (fun e => e.2)

/-- The image-caching step of `saveAllSettingsToLocalStorage`
(`storage.js` lines 102-112): the key is `generateHash` of the base64
content, then an insert-only write; the key is used regardless of
whether the write happened. -/
def putImage (db : ImageDB) (mime b64 : String) : ImageDB × String × Bool :=
  let imageHash := generateHash b64
  let r := _saveImageToDB db imageHash mime b64
  (r.1, imageHash, r.2)

/-! ## Flatten and diff utilities (`storage.js`) -/

/-- A JSON-like JavaScript value, as handled by `flattenObject`. -/
inductive JVal where
  | str : String → JVal
  | num : Int → JVal
  | bool : Bool → JVal
  | null : JVal
  | obj : List (String × JVal) → JVal
  | arr : List JVal → JVal

/-- A scalar leaf value of a flattened object. -/
inductive JLeaf where
  | str : String → JLeaf
  | num : Int → JLeaf
  | bool : Bool → JLeaf
  | null : JLeaf
deriving DecidableEq

/-- `Object(value) === value`: true exactly for objects and arrays. -/
def isObjectVal : JVal → Bool
  | .obj _ => true
  | .arr _ => true
  | _ => false

/-- View of a non-object value as a leaf (only applied under a
`!isObjectVal` guard). -/
def toLeaf : JVal → JLeaf
  | .str s => .str s
  | .num n => .num n
  | .bool b => .bool b
  | _ => .null

/-- `Object.entries`: an object's own entries in order; an array's
elements under their decimal index keys. -/
def entriesOf : JVal → List (String × JVal)
  | .obj fs => fs
  | .arr xs => xs.enum.map (fun p => (toString p.1, p.2))
  | _ => []

/-- The opening brace character. -/
def lbrace : Char := Char.ofNat 123

/-- The closing brace character. -/
def rbrace : Char := Char.ofNat 125

/-- `s.startsWith(c)` for a single character. -/
def startsWithChar (s : String) (c : Char) : Bool :=
  match s.data with
  | [] => false
  | a :: _ => a == c

/-- `s.endsWith(c)` for a single character. -/
def endsWithChar (s : String) (c : Char) : Bool :=
  match s.data.getLast? with
  | some a => a == c
  | none => false

/-- The guard of `flattenObject`'s string re-decoding: a leading brace
with a trailing brace, or a leading bracket with a trailing bracket. -/
def looksJson (s : String) : Bool :=
  (startsWithChar s lbrace && endsWithChar s rbrace) ||
    (startsWithChar s '[' && endsWithChar s ']')

/-- The string re-decoding step of `flattenObject`: a string that looks
like serialized JSON is passed to `JSON.parse`; on failure the string is
kept as a leaf.  `JSON.parse` is a host primitive and enters the model
as the oracle `parse`. -/
def reparseStep (parse : String → Option JVal) (v : JVal) : JVal :=
  match v with
  | .str s => if looksJson s then (match parse s with | some w => w | none => .str s) else .str s
  | _ => v

/-- The dot separator of `path.join('.')`. -/
def dotSep : String := "."

/-- `path.join('.')`. -/
def joinPath (path : List String) : String :=
  String.intercalate dotSep path

/-- JavaScript property assignment `object[key] = value` on an object
represented as an ordered association list: overwrite in place if the
key exists, else append. -/
def jsAssign (m : List (String × JLeaf)) (k : String) (v : JLeaf) : List (String × JLeaf) :=
  if m.any (fun e => e.1 == k) then m.map (fun e => if e.1 == k then (k, v) else e)
  else m ++ [(k, v)]

/-- The recursive `dig` of `flattenObject` (`storage.js`): walks the
entries in order, re-decodes JSON-looking strings, descends into object
values and records scalar leaves under dotted-path keys.  The structural
fuel bounds the nesting depth (the source recursion terminates because
each `JSON.parse` consumes quoting; every claim holds for every fuel). -/
def digList (parse : String → Option JVal) :
    Nat → List String → List (String × JVal) → List (String × JLeaf) → List (String × JLeaf)
  | 0, _, _, acc => acc
  | fuel + 1, path, entries, acc =>
    entries.foldl (fun acc2 kv =>
      let v2 := reparseStep parse kv.2
      if isObjectVal v2 then digList parse fuel (path ++ [kv.1]) (entriesOf v2) acc2
      else jsAssign acc2 (joinPath (path ++ [kv.1])) (toLeaf v2)) acc

/-- Embedding of `flattenObject` (`storage.js`): `undefined` flattens to
the empty object, otherwise `dig` runs over the record's entries. -/
def flattenObject (parse : String → Option JVal) (fuel : Nat)
    (obj : Option (List (String × JVal))) : List (String × JLeaf) :=
  match obj with
  | none => []
  | some entries => digList parse fuel [] entries []

/-- A value (after the re-decoding step) is an object or array
containing no scalar leaves anywhere below it, to the given depth. -/
def noLeaves (parse : String → Option JVal) : Nat → JVal → Bool
  | 0, v => isObjectVal v
  | fuel + 1, v =>
    isObjectVal v && (entriesOf v).all (fun kv => noLeaves parse fuel (reparseStep parse kv.2))

/-- A value of the three diff classification maps: `added` and `removed`
keep leaves, `changed` ends up holding `\x7bfrom, to\x7d` pairs. -/
inductive DiffVal where
  | leaf : JLeaf → DiffVal
  | fromTo : JLeaf → JLeaf → DiffVal
deriving DecidableEq

/-- JavaScript property read `m[k]` on an association list
(`undefined` is `none`). -/
def jsGet {α : Type} (m : List (String × α)) (k : String) : Option α :=
  (m.find? (fun e => e.1 == k)).map (fun e => e.2)

/-- `delete m[k]`. -/
def jsDelete {α : Type} (m : List (String × α)) (k : String) : List (String × α) :=
  m.filter (fun e => !(e.1 == k))

/-- `m[k] = v` on a `DiffVal` map. -/
def jsSetD (m : List (String × DiffVal)) (k : String) (v : DiffVal) : List (String × DiffVal) :=
  if m.any (fun e => e.1 == k) then m.map (fun e => if e.1 == k then (k, v) else e)
  else m ++ [(k, v)]

/-- One iteration of the `for (let key in after)` loop of `diffFlatten`:
identical values are deleted from all three maps; keys in both with
different values become `\x7bfrom, to\x7d` entries of `changed`; keys
only in `after` stay in `added`. -/
def diffStep (before : List (String × JLeaf))
    (st : List (String × JLeaf) × List (String × DiffVal) × List (String × JLeaf))
    (kv : String × JLeaf) :
    List (String × JLeaf) × List (String × DiffVal) × List (String × JLeaf) :=
  match jsGet before kv.1 with
  | some bv =>
    if bv = kv.2 then (jsDelete st.1 kv.1, jsDelete st.2.1 kv.1, jsDelete st.2.2 kv.1)
    else (jsDelete st.1 kv.1, jsSetD st.2.1 kv.1 (.fromTo bv kv.2), jsDelete st.2.2 kv.1)
  | none => (st.1, jsDelete st.2.1 kv.1, jsDelete st.2.2 kv.1)

/-- Embedding of `diffFlatten` (`storage.js`): `added` and `changed`
start as copies of `after`, `removed` as a copy of `before`, then the
loop over `after`'s keys prunes and rewrites them. -/
def diffFlatten (before after : List (String × JLeaf)) :
    List (String × JLeaf) × List (String × DiffVal) × List (String × JLeaf) :=
  after.foldl (diffStep before)
    (after, after.map (fun kv => (kv.1, DiffVal.leaf kv.2)), before)

/-- Embedding of `compareObjects` (`storage.js`). -/
def compareObjects (parse : String → Option JVal) (fuel : Nat)
    (before after : Option (List (String × JVal))) :
    List (String × JLeaf) × List (String × DiffVal) × List (String × JLeaf) :=
  diffFlatten (flattenObject parse fuel before) (flattenObject parse fuel after)

/-- The text of an empty JSON object. -/
def emptyObjText : String := "\x7b\x7d"

/-- The text of an empty JSON array. -/
def emptyArrText : String := "[]"

/-- A minimal concrete instance of the `JSON.parse` oracle, sufficient
for the concrete examples: it decodes the empty-object and empty-array
literals and fails on everything else. -/
def jsonParseModel (s : String) : Option JVal :=
  if s = emptyObjText then some (.obj [])
  else if s = emptyArrText then some (.arr [])
  else none

/-- A concrete key for diff examples. -/
def keyA : String := "a"

/-- A concrete key for diff examples. -/
def keyB : String := "b"

/-- A concrete key for diff examples. -/
def keyC : String := "c"

/-- A concrete flat map for diff examples. -/
def beforeEx : List (String × JLeaf) := [(keyA, .num 1), (keyB, .num 2)]

/-- A concrete flat map for diff examples, overlapping `beforeEx` in
`keyB` with a different value. -/
def afterEx : List (String × JLeaf) := [(keyB, .num 3), (keyC, .num 4)]

/-- A concrete mime type for witnesses. -/
def pngMime : String := "image/png"

/-- A concrete asset content for witnesses. -/
def xyzContent : String := "xyz"

/-- The two-character string `ab`, for the order-dependence example. -/
def abText : String := "ab"

/-- The two-character string `ba`: same characters, other order. -/
def baText : String := "ba"

/-! ## Per-line font settings resolver (`font-settings.js`) -/

/-- The current style controls, as collected into `currentFont` at the
top of `setFontSettingsPerLine`. -/
structure FontStyle where
  font : String
  size : String
  inverted : Bool
  checkbox : Bool
  align : String
  line_spacing : String
  color : String
deriving DecidableEq

/-- One entry of `fontSettingsPerLine`.  `style = none` models the
field-less object produced by `Object.assign(\x7b\x7d, undefined)`
(cloning a slot that does not exist); otherwise the slot carries a full
copy of some style record.  `text` is the slot's `text` property, with
`""` standing for a not-yet-assigned property (every slot of the
resolver's output has its `text` overwritten at the end). -/
structure LineSlot where
  style : Option FontStyle
  text : String
deriving DecidableEq

/-- `Object.assign(\x7b\x7d, x)` for `x` a slot or `undefined`. -/
def cloneSlot : Option LineSlot → LineSlot
  | some sl => sl
  | none => { style := none, text := "" }

/-- The field-less slot, used as the `getD` default in theorems. -/
def emptySlot : LineSlot := { style := none, text := "" }

/-- A concrete stored per-line style, for scenario theorems. -/
def styleP : FontStyle :=
  { font := "P", size := "10", inverted := false, checkbox := false,
    align := "left", line_spacing := "100", color := "black" }

/-- A concrete current style, distinct from `styleP`. -/
def styleF : FontStyle :=
  { font := "X", size := "12", inverted := true, checkbox := false,
    align := "center", line_spacing := "150", color := "red" }

/-- The `text` print type (any non-shipping value). -/
def ptText : String := "text"

/-- The three-line label text of the spec scenario. -/
def textABC : String := "A\nB\nC"

/-- The first line of `textABC`. -/
def lineA : String := "A"

/-- Specification formula for the C4 theorem: the style the resolver
gives slot `i` in independent mode — the current style for the selected
slot, the stored style for other pre-existing slots, and for appended
slots the current style when nothing is selected, otherwise the style
the preceding slot had at append time (the last stored slot's style, or
an absent style when no slot exists). -/
def indepStyle (cur : FontStyle) (sel : Option Nat) (prior : List LineSlot)
    (i : Nat) : Option FontStyle :=
  if sel = some i then some cur
  else if i < prior.length then (prior.getD i emptySlot).style
  else if sel.isNone then some cur
  else (cloneSlot prior.getLast?).style

/-- A concrete field name for flatten examples. -/
def fieldF : String := "f"

/-- A second concrete field name for flatten examples. -/
def fieldG : String := "g"

/-- `SHIPPING_LINE_NAMES` from `font-settings.js`. -/
def SHIPPING_LINE_NAMES : List String := ["Sender section", "Recipient section"]

/-- Splitting on the separator regex `/\r?\n/` of `text.split`: each
newline is a separator, consuming one immediately preceding carriage
return; a lone carriage return is not a separator. -/
def splitLinesAux : List Char → List Char → List String
  | [], acc => [String.mk acc.reverse]
  | '\r' :: '\n' :: rest, acc => String.mk acc.reverse :: splitLinesAux rest []
  | '\n' :: rest, acc => String.mk acc.reverse :: splitLinesAux rest []
  | c :: rest, acc => splitLinesAux rest (c :: acc)

/-- `text.split(/\r?\n/)`. -/
def splitLines (s : String) : List String :=
  splitLinesAux s.data []

/-- The source's strict comparison `i === selectedLine`: the loop index
is a number while `selectedLine` holds the value read from the line
`<select>`, which is a string (or `null`); strict equality between a
number and a string or `null` is always false, so this condition never
holds. -/
def jsStrictEqIdxSel (_ : Nat) (_ : Option Nat) : Bool := false

/-- The growth loop of `setFontSettingsPerLine` (independent mode):
`for (i = fontSettingsPerLine.length; i < lines.length; i++)` appends
either a copy of the current style (when `i === selectedLine`, which
never holds, or no line is selected) or a copy of `arr[i - 1]`, the
last element so far.  The fuel is the exact iteration count
`lines.length - fontSettingsPerLine.length`. -/
def growLoopAux (sel : Option Nat) (currentFont : FontStyle) :
    Nat → List LineSlot → List LineSlot
  | 0, arr => arr
  | n + 1, arr =>
    let newSlot := if jsStrictEqIdxSel arr.length sel || sel.isNone
      then { style := some currentFont, text := "" }
      else cloneSlot arr.getLast?
    growLoopAux sel currentFont n (arr ++ [newSlot])

/-- The growth phase: runs the loop `target - arr.length` times (zero
times when the array is already long enough). -/
def growLoop (sel : Option Nat) (currentFont : FontStyle)
    (arr : List LineSlot) (target : Nat) : List LineSlot :=
  growLoopAux sel currentFont (target - arr.length) arr

/-- The backfill loop of `_setShippingFontSettings`: while the array is
shorter than the section list, push a copy of the last existing slot,
or of the current style when no slot exists. -/
def shipFillAux (currentFont : FontStyle) : Nat → List LineSlot → List LineSlot
  | 0, arr => arr
  | n + 1, arr =>
    let prev := match arr.getLast? with
      | some sl => sl
      | none => { style := some currentFont, text := "" }
    shipFillAux currentFont n (arr ++ [prev])

/-- Embedding of `_setShippingFontSettings` (`font-settings.js`): the
selected index is `parseInt(lineSelect.val()) || 0`, reset to 0 when out
of range; the slot list is backfilled to the section count, sliced to
it, then either every slot (synced) or the selected slot is replaced by
a copy of the current style, and every slot's `text` is forced to its
section name. -/
def _setShippingFontSettings (currentFont : FontStyle) (sel : Option Nat)
    (isSynced : Bool) (prior : List LineSlot) : List LineSlot :=
  let selN := match sel with | some j => j | none => 0
  let selectedLine := if SHIPPING_LINE_NAMES.length ≤ selN then 0 else selN
  let filled := shipFillAux currentFont (SHIPPING_LINE_NAMES.length - prior.length) prior
  let sliced := filled.take SHIPPING_LINE_NAMES.length
  let assigned := if isSynced
    then sliced.map (fun _ => { style := some currentFont, text := "" })
    else sliced.set selectedLine { style := some currentFont, text := "" }
  List.zipWith (fun sl nm => { sl with text := nm }) assigned SHIPPING_LINE_NAMES

/-- Embedding of `setFontSettingsPerLine` (`font-settings.js`).
Inputs: the current style controls, the checked print type, the raw
label text, the value previously selected in the line `<select>` (the
index it denotes, `none` for `null`), the synced-mode checkbox, and the
stored `fontSettingsPerLine` array.  Shipping mode is delegated; synced
mode rebuilds every slot from the current style; independent mode grows
the array (see `growLoopAux`), truncates it from the end with
`while (...) pop()`, replaces the selected slot (when it exists) with a
copy of the current style, and finally rewrites every slot's `text` to
its line. -/
def setFontSettingsPerLine (currentFont : FontStyle) (printType : String)
    (labelText : String) (sel : Option Nat) (isSynced : Bool)
    (prior : List LineSlot) : List LineSlot :=
  if printType = "shipping" then
    _setShippingFontSettings currentFont sel isSynced prior
  else
    let lines0 := splitLines labelText
    let lines := if lines0.length = 0 then [""] else lines0
    if isSynced then
      lines.map (fun ln => { style := some currentFont, text := ln })
    else
      let grown := growLoop sel currentFont prior lines.length
      let trunc := grown.take lines.length
      let replaced := match sel with
        | some j =>
          if j < trunc.length then trunc.set j { style := some currentFont, text := "" }
          else trunc
        | none => trunc
      List.zipWith (fun sl ln => { sl with text := ln }) replaced lines

/-! ## Helper lemmas about the snapshot store -/

theorem getLast?_drop_of_lt {α : Type} :
    ∀ (n : Nat) (l : List α), n < l.length → (l.drop n).getLast? = l.getLast?
  | 0, _, _ => rfl
  | n + 1, [], h => absurd h (by simp)
  | n + 1, a :: t, h => by
    rw [List.drop_succ_cons, getLast?_drop_of_lt n t (by simpa using h)]
    cases t with
    | nil => simp at h
    | cons b r => simp

theorem adjacentDistinct_concat_iff :
    ∀ (l : List Snap) (d : Snap),
      adjacentDistinct (l ++ [d]) = true ↔
        (adjacentDistinct l = true ∧ l.getLast? ≠ some d)
  | [], d => by simp [adjacentDistinct]
  | [a], d => by simp [adjacentDistinct]
  | a :: b :: t, d => by
    have ih := adjacentDistinct_concat_iff (b :: t) d
    have h1 : adjacentDistinct ((a :: b :: t) ++ [d]) =
        (decide (a ≠ b) && adjacentDistinct ((b :: t) ++ [d])) := by
      simp [adjacentDistinct]
    have h2 : adjacentDistinct (a :: b :: t) =
        (decide (a ≠ b) && adjacentDistinct (b :: t)) := by
      simp [adjacentDistinct]
    rw [h1, h2, List.getLast?_cons_cons, Bool.and_eq_true, Bool.and_eq_true,
      decide_eq_true_eq, ih]
    tauto

theorem adjacentDistinct_tail {a : Snap} {t : List Snap}
    (h : adjacentDistinct (a :: t) = true) : adjacentDistinct t = true := by
  cases t with
  | nil => rfl
  | cons b r =>
    have := h
    simp [adjacentDistinct, Bool.and_eq_true] at this
    exact this.2

theorem adjacentDistinct_drop :
    ∀ (n : Nat) (l : List Snap), adjacentDistinct l = true →
      adjacentDistinct (l.drop n) = true
  | 0, _, h => h
  | n + 1, [], _ => rfl
  | n + 1, a :: t, h => by
    rw [List.drop_succ_cons]
    exact adjacentDistinct_drop n t (adjacentDistinct_tail h)

theorem adjacentDistinct_dropLast {l : List Snap}
    (h : adjacentDistinct l = true) : adjacentDistinct l.dropLast = true := by
  rcases eq_or_ne l [] with rfl | hne
  · exact h
  · have hrw := List.dropLast_append_getLast hne
    rw [← hrw] at h
    exact ((adjacentDistinct_concat_iff l.dropLast (l.getLast hne)).1 h).1

theorem save_current (s : LDStore) (d : Snap) :
    (saveAllSettingsToLocalStorage s d).current = some d := by
  unfold saveAllSettingsToLocalStorage
  dsimp only
  split
  · split <;> rfl
  · rfl

theorem save_of_last_ne (s : LDStore) (d : Snap)
    (h : s.history.getLast? ≠ some d) :
    (saveAllSettingsToLocalStorage s d).history.length =
        min (s.history.length + 1) MAX_HISTORY ∧
      (saveAllSettingsToLocalStorage s d).history.getLast? = some d := by
  unfold saveAllSettingsToLocalStorage
  dsimp only
  rw [if_pos (Or.inr h)]
  have hlen2 : (s.history ++ [d]).length = s.history.length + 1 := by simp
  have hM : MAX_HISTORY = 40 := rfl
  by_cases hlen : MAX_HISTORY < (s.history ++ [d]).length
  · rw [if_pos hlen]
    constructor
    · rw [List.length_drop, hlen2]
      rw [hlen2] at hlen
      omega
    · rw [getLast?_drop_of_lt _ _ (by omega), List.getLast?_concat]
  · rw [if_neg hlen]
    rw [hlen2] at hlen
    constructor
    · rw [hlen2]
      omega
    · exact List.getLast?_concat _

theorem save_adjacentDistinct (s : LDStore) (d : Snap)
    (hadj : adjacentDistinct s.history = true) :
    adjacentDistinct (saveAllSettingsToLocalStorage s d).history = true := by
  unfold saveAllSettingsToLocalStorage
  dsimp only
  split
  · next hcond =>
    have hne : s.history.getLast? ≠ some d := by
      rcases hcond with h0 | h0
      · rw [h0]; simp
      · exact h0
    have hconc : adjacentDistinct (s.history ++ [d]) = true :=
      (adjacentDistinct_concat_iff _ _).2 ⟨hadj, hne⟩
    split
    · exact adjacentDistinct_drop _ _ hconc
    · exact hconc
  · exact hadj

theorem storeInv_save (s : LDStore) (d : Snap) (h : storeInv s = true) :
    storeInv (saveAllSettingsToLocalStorage s d) = true := by
  have hparts : adjacentDistinct s.history = true ∧
      (s.history = [] ∨ s.current = s.history.getLast?) := by
    simpa [storeInv, Bool.and_eq_true, Bool.or_eq_true, decide_eq_true_eq] using h
  have hadj := save_adjacentDistinct s d hparts.1
  by_cases hd : s.history.getLast? = some d
  · have hnonnil : s.history ≠ [] := by
      intro h0; rw [h0] at hd; simp at hd
    have hres : saveAllSettingsToLocalStorage s d =
        { current := some d, history := s.history } := by
      unfold saveAllSettingsToLocalStorage
      rw [if_neg]
      push_neg
      exact ⟨hnonnil, by simpa using hd⟩
    rw [hres] at hadj ⊢
    simp [storeInv, Bool.and_eq_true, Bool.or_eq_true, decide_eq_true_eq, hadj, hd]
  · have hsp := save_of_last_ne s d hd
    have hcur := save_current s d
    simp [storeInv, Bool.and_eq_true, Bool.or_eq_true, decide_eq_true_eq, hadj,
      hcur, hsp.2]

theorem storeInv_undo (s : LDStore) (h : storeInv s = true) :
    storeInv (undoSettings s) = true := by
  unfold undoSettings
  split
  · exact h
  · have hparts : adjacentDistinct s.history = true ∧
        (s.history = [] ∨ s.current = s.history.getLast?) := by
      simpa [storeInv, Bool.and_eq_true, Bool.or_eq_true, decide_eq_true_eq] using h
    have hadj := adjacentDistinct_dropLast hparts.1
    simp [storeInv, Bool.and_eq_true, Bool.or_eq_true, decide_eq_true_eq, hadj]

theorem applySaves_cons (s : LDStore) (d : Snap) (rest : List Snap) :
    applySaves s (d :: rest) = applySaves (saveAllSettingsToLocalStorage s d) rest := rfl

theorem applySaves_spec :
    ∀ (l : List Snap) (s : LDStore), s.history.length ≤ MAX_HISTORY →
      freshChain s.history.getLast? l →
      (applySaves s l).history.length = min (s.history.length + l.length) MAX_HISTORY ∧
        (l ≠ [] → (applySaves s l).history.getLast? = l.getLast?)
  | [], s, hlen, _ => by
    constructor
    · have : applySaves s [] = s := rfl
      rw [this]
      simp only [List.length_nil]
      omega
    · intro hne; exact absurd rfl hne
  | d :: rest, s, hlen, hfresh => by
    have hsp := save_of_last_ne s d hfresh.1
    have hlen2 : (saveAllSettingsToLocalStorage s d).history.length ≤ MAX_HISTORY := by
      rw [hsp.1]; omega
    have hfresh2 : freshChain (saveAllSettingsToLocalStorage s d).history.getLast? rest := by
      rw [hsp.2]; exact hfresh.2
    have ih := applySaves_spec rest (saveAllSettingsToLocalStorage s d) hlen2 hfresh2
    rw [applySaves_cons]
    constructor
    · rw [ih.1, hsp.1]
      simp only [List.length_cons]
      omega
    · intro _
      cases rest with
      | nil =>
        have : applySaves (saveAllSettingsToLocalStorage s d) [] =
            saveAllSettingsToLocalStorage s d := rfl
        rw [this, hsp.2]
        rfl
      | cons e r =>
        rw [ih.2 (by simp), List.getLast?_cons_cons]

theorem freshChain_of_pairwise :
    ∀ (l : List Snap) (prev : Option Snap), l.Pairwise (· ≠ ·) →
      (∀ x ∈ l, prev ≠ some x) → freshChain prev l
  | [], _, _, _ => trivial
  | d :: rest, prev, hp, hprev => by
    refine ⟨hprev d (by simp), ?_⟩
    refine freshChain_of_pairwise rest (some d) ((List.pairwise_cons.1 hp).2) ?_
    intro x hx heq
    exact (List.pairwise_cons.1 hp).1 x hx (by simpa using heq)

/-! ## Claim C1: undo-step count after `k` distinct saves -/

/-- Claim C1 (counterexample): the claim states that after the `k`-th
save with pairwise distinct contents, starting from an empty history,
the reported undo-step count is `min(k, 39)`.  After the first save the
history has one entry and `updateUndoButton` reports
`max(0, 1 - 1) = 0`, not `min(1, 39) = 1`. -/
theorem c1_counterexample :
    ¬ updateUndoButton (applySaves emptyStore [snapA]) = min 1 39 := by
  decide

/-- Claim C1 (amended): after the `k`-th save with pairwise distinct
canonical contents, starting from an empty history, the reported
undo-step count is `min(k, 40) - 1` (natural subtraction), that is,
`min(k - 1, 39)`. -/
theorem c1_amended (l : List Snap) (h : l.Pairwise (· ≠ ·)) :
    updateUndoButton (applySaves emptyStore l) = min l.length MAX_HISTORY - 1 := by
  have hfresh : freshChain emptyStore.history.getLast? l :=
    freshChain_of_pairwise l none h (fun x _ => by simp)
  have hspec := applySaves_spec l emptyStore (by decide) hfresh
  unfold updateUndoButton
  rw [hspec.1]
  simp [emptyStore]

/-- Claim C1 (witness): two distinct saves report one undo step. -/
theorem c1_witness :
    updateUndoButton (applySaves emptyStore [snapA, snapB]) =
      min ([snapA, snapB] : List Snap).length MAX_HISTORY - 1 :=
  c1_amended [snapA, snapB] (by decide)

/-! ## Claim C2: the history invariant under save, undo and restore -/

/-- Claim C2 (counterexample): the claim states that restoring an
externally supplied snapshot (a repository load) preserves the history
invariant and follows the same history rules as a normal save.  After
one save of `snapA`, the invariant holds; a repository load of `snapB`
leaves the history untouched while overwriting the current snapshot, so
the invariant's last-entry-equals-current half fails, and the resulting
store differs from the one a normal save of `snapB` would produce. -/
theorem c2_counterexample :
    storeInv (saveAllSettingsToLocalStorage emptyStore snapA) = true ∧
      storeInv (repoLoad (saveAllSettingsToLocalStorage emptyStore snapA) snapB) = false ∧
      repoLoad (saveAllSettingsToLocalStorage emptyStore snapA) snapB ≠
        saveAllSettingsToLocalStorage (saveAllSettingsToLocalStorage emptyStore snapA)
          snapB := by
  decide

/-- Claim C2 (amended): save and undo preserve the history invariant
(adjacent history entries are never equal, and a non-empty history ends
in the current persisted snapshot); a repository load, by contrast,
writes the loaded snapshot directly as current without going through
the save path, so it is excluded. -/
theorem c2_amended (s : LDStore) (d : Snap) (h : storeInv s = true) :
    storeInv (saveAllSettingsToLocalStorage s d) = true ∧
      storeInv (undoSettings s) = true :=
  ⟨storeInv_save s d h, storeInv_undo s h⟩

/-- Claim C2 (witness): the preservation theorem applied to the empty
store and a concrete snapshot. -/
theorem c2_witness :
    storeInv (saveAllSettingsToLocalStorage emptyStore snapA) = true ∧
      storeInv (undoSettings emptyStore) = true :=
  c2_amended emptyStore snapA (by decide)

/-! ## Claim C3: undo semantics -/

/-- Claim C3: with fewer than two history entries, undo changes nothing
(neither history nor the current snapshot); otherwise it removes the
last entry and makes the new last entry current.  In the scenario
`save a1; save a2; save a3; undo` from the empty store, the current
snapshot becomes `a2` and one undo step remains. -/
theorem c3_theorem :
    (∀ s : LDStore, s.history.length < 2 → undoSettings s = s) ∧
      (∀ s : LDStore, 2 ≤ s.history.length →
        undoSettings s =
          { current := s.history.dropLast.getLast?, history := s.history.dropLast }) ∧
      ((undoSettings (applySaves emptyStore [snapA, snapB, snapC])).current =
          some snapB ∧
        updateUndoButton (undoSettings (applySaves emptyStore [snapA, snapB, snapC])) =
          1) := by
  refine ⟨?_, ?_, by decide⟩
  · intro s h
    unfold undoSettings
    rw [if_pos h]
  · intro s h
    unfold undoSettings
    rw [if_neg (by omega)]

/-- Claim C3 (witness): the two conditional parts applied to concrete
stores of history length one and two. -/
theorem c3_witness :
    undoSettings (LDStore.mk (some snapA) [snapA]) = LDStore.mk (some snapA) [snapA] ∧
      undoSettings (LDStore.mk (some snapB) [snapA, snapB]) =
        { current := ([snapA, snapB] : List Snap).dropLast.getLast?,
          history := ([snapA, snapB] : List Snap).dropLast } :=
  ⟨c3_theorem.1 _ (by decide), c3_theorem.2.1 _ (by decide)⟩

/-! ## Claim C5: idempotent content-addressed writes -/

theorem putImage_key_mem (db : ImageDB) (mime b64 : String) :
    (putImage db mime b64).1.any (fun e => e.1 == generateHash b64) = true := by
  unfold putImage _saveImageToDB
  dsimp only
  by_cases h : db.any (fun e => e.1 == generateHash b64) = true
  · rw [if_pos h]
    exact h
  · rw [if_neg h]
    simp

/-- Claim C5: writing the same content twice yields the same key both
times; the second write leaves the table unchanged (never overwrites)
and is reported as an already-present no-op (`false`), not an error;
when the key is initially absent, the table gains exactly one entry for
it, holding the first write's record. -/
theorem c5_theorem (db : ImageDB) (mime mime2 b64 : String) :
    (putImage db mime b64).2.1 =
        (putImage (putImage db mime b64).1 mime2 b64).2.1 ∧
      (putImage (putImage db mime b64).1 mime2 b64).1 = (putImage db mime b64).1 ∧
      (putImage (putImage db mime b64).1 mime2 b64).2.2 = false ∧
      ((∀ e ∈ db, e.1 ≠ generateHash b64) →
        (putImage db mime b64).1.length = db.length + 1 ∧
          (putImage db mime b64).2.2 = true ∧
          _getImageFromDB (putImage db mime b64).1 (putImage db mime b64).2.1 =
            some (ImageRecord.mk mime b64)) := by
  have hmem := putImage_key_mem db mime b64
  refine ⟨rfl, ?_, ?_, ?_⟩
  · show (_saveImageToDB (putImage db mime b64).1 (generateHash b64) mime2 b64).1 = _
    unfold _saveImageToDB
    rw [if_pos hmem]
  · show (_saveImageToDB (putImage db mime b64).1 (generateHash b64) mime2 b64).2 = _
    unfold _saveImageToDB
    rw [if_pos hmem]
  · intro hfresh
    have hany : db.any (fun e => e.1 == generateHash b64) = false := by
      simp only [List.any_eq_false]
      intro e he
      simpa using hfresh e he
    have hres : putImage db mime b64 =
        (db ++ [(generateHash b64, ImageRecord.mk mime b64)], generateHash b64, true) := by
      unfold putImage _saveImageToDB
      dsimp only
      rw [if_neg (by simp [hany])]
    rw [hres]
    refine ⟨by simp, rfl, ?_⟩
    unfold _getImageFromDB
    rw [List.find?_append]
    have hnone : db.find? (fun e => e.1 == generateHash b64) = none := by
      simp only [List.find?_eq_none]
      intro e he
      simpa using hfresh e he
    rw [hnone]
    simp

/-- Claim C5 (witness): two writes of the content `xyz` into the empty
table. -/
theorem c5_witness :
    (putImage [] pngMime xyzContent).2.1 =
        (putImage (putImage [] pngMime xyzContent).1 pngMime xyzContent).2.1 ∧
      (putImage (putImage [] pngMime xyzContent).1 pngMime xyzContent).1 =
        (putImage [] pngMime xyzContent).1 ∧
      (putImage (putImage [] pngMime xyzContent).1 pngMime xyzContent).2.2 = false ∧
      (putImage [] pngMime xyzContent).1.length = ([] : ImageDB).length + 1 ∧
      (putImage [] pngMime xyzContent).2.2 = true ∧
      _getImageFromDB (putImage [] pngMime xyzContent).1
          (putImage [] pngMime xyzContent).2.1 =
        some (ImageRecord.mk pngMime xyzContent) := by
  have h := c5_theorem [] pngMime pngMime xyzContent
  have h4 := h.2.2.2 (by intro e he; simp at he)
  exact ⟨h.1, h.2.1, h.2.2.1, h4.1, h4.2.1, h4.2.2⟩

/-! ## Claim C6: the content hash is FNV-1a, 64-bit, base-36 encoded -/

theorem powMod_correct :
    ∀ (fuel a b n : Nat), 0 < n → b < 2 ^ fuel → powMod fuel a b n = a ^ b % n
  | 0, a, b, n, _, hb => by
    have hb0 : b = 0 := by
      have : (2 : Nat) ^ 0 = 1 := rfl
      omega
    subst hb0
    simp [powMod]
  | fuel + 1, a, b, n, hn, hb => by
    unfold powMod
    by_cases h0 : b = 0
    · subst h0
      simp
    · rw [if_neg h0]
      have hpow : (2 : Nat) ^ (fuel + 1) = 2 * 2 ^ fuel := by ring
      have hb2 : b / 2 < 2 ^ fuel := by omega
      have ih := powMod_correct fuel a (b / 2) n hn hb2
      dsimp only
      rw [ih]
      by_cases hpar : b % 2 = 1
      · rw [if_pos hpar]
        conv_rhs => rw [show b = b / 2 + b / 2 + 1 by omega]
        rw [pow_add, pow_add, pow_one,
          Nat.mul_mod (a ^ (b / 2) * a ^ (b / 2)) a n,
          Nat.mul_mod (a ^ (b / 2)) (a ^ (b / 2)) n]
      · rw [if_neg hpar]
        conv_rhs => rw [show b = b / 2 + b / 2 by omega]
        rw [pow_add, Nat.mul_mod (a ^ (b / 2)) (a ^ (b / 2)) n]

theorem fnv_prime_prime : Nat.Prime FNV_PRIME := by
  have hlt : (FNV_PRIME - 1 : Nat) < 2 ^ 41 := by norm_num [FNV_PRIME]
  have hppos : 0 < FNV_PRIME := by norm_num [FNV_PRIME]
  have key : ∀ e : Nat, e < 2 ^ 41 → powMod 41 2 e FNV_PRIME ≠ 1 % FNV_PRIME →
      ((2 : Nat) : ZMod FNV_PRIME) ^ e ≠ 1 := by
    intro e he hne hcontra
    apply hne
    rw [powMod_correct 41 2 e FNV_PRIME hppos he]
    rw [← Nat.cast_pow] at hcontra
    have h1 : ((1 : Nat) : ZMod FNV_PRIME) = 1 := by push_cast; rfl
    rw [← h1] at hcontra
    exact (ZMod.natCast_eq_natCast_iff' _ _ _).1 hcontra
  apply lucas_primality FNV_PRIME ((2 : Nat) : ZMod FNV_PRIME)
  · rw [← Nat.cast_pow]
    have h1 : ((1 : Nat) : ZMod FNV_PRIME) = 1 := by push_cast; rfl
    rw [← h1, ZMod.natCast_eq_natCast_iff']
    rw [← powMod_correct 41 2 (FNV_PRIME - 1) FNV_PRIME hppos hlt]
    decide
  · intro q hq hdvd
    have hfac : FNV_PRIME - 1 = 2 * (3 ^ 2 * (5 * (47 * (977 * 266051)))) := by
      norm_num [FNV_PRIME]
    rw [hfac] at hdvd
    have hq6 : q = 2 ∨ q = 3 ∨ q = 5 ∨ q = 47 ∨ q = 977 ∨ q = 266051 := by
      rcases (Nat.Prime.dvd_mul hq).1 hdvd with h | h
      · exact Or.inl ((Nat.prime_dvd_prime_iff_eq hq (by norm_num)).1 h)
      rcases (Nat.Prime.dvd_mul hq).1 h with h | h
      · exact Or.inr (Or.inl ((Nat.prime_dvd_prime_iff_eq hq (by norm_num)).1
          (hq.dvd_of_dvd_pow h)))
      rcases (Nat.Prime.dvd_mul hq).1 h with h | h
      · exact Or.inr (Or.inr (Or.inl ((Nat.prime_dvd_prime_iff_eq hq (by norm_num)).1 h)))
      rcases (Nat.Prime.dvd_mul hq).1 h with h | h
      · exact Or.inr (Or.inr (Or.inr (Or.inl
          ((Nat.prime_dvd_prime_iff_eq hq (by norm_num)).1 h))))
      rcases (Nat.Prime.dvd_mul hq).1 h with h | h
      · exact Or.inr (Or.inr (Or.inr (Or.inr (Or.inl
          ((Nat.prime_dvd_prime_iff_eq hq (by norm_num)).1 h)))))
      · exact Or.inr (Or.inr (Or.inr (Or.inr (Or.inr
          ((Nat.prime_dvd_prime_iff_eq hq (by norm_num)).1 h)))))
    rcases hq6 with rfl | rfl | rfl | rfl | rfl | rfl
    · exact key _ (by norm_num [FNV_PRIME]) (by decide)
    · exact key _ (by norm_num [FNV_PRIME]) (by decide)
    · exact key _ (by norm_num [FNV_PRIME]) (by decide)
    · exact key _ (by norm_num [FNV_PRIME]) (by decide)
    · exact key _ (by norm_num [FNV_PRIME]) (by decide)
    · exact key _ (by norm_num [FNV_PRIME]) (by decide)

/-- Claim C6: `generateHash` computes, for every input string, exactly
the spec's rolling hash — an accumulator seeded with the fixed non-zero
64-bit basis is, per input unit, xored with the unit, multiplied by the
fixed odd prime `FNV_PRIME` and masked to 64 bits — encoded in base 36;
the basis is non-zero and below `2 ^ 64`, the multiplier is odd and
prime, and the hash is order-dependent (`ab` and `ba` hash
differently). -/
theorem c6_theorem :
    (∀ s : String, generateHash s = specHash s) ∧
      FNV_OFFSET_BASIS ≠ 0 ∧ FNV_OFFSET_BASIS < 2 ^ 64 ∧
      FNV_PRIME % 2 = 1 ∧ Nat.Prime FNV_PRIME ∧
      generateHash abText ≠ generateHash baText :=
  ⟨fun _ => rfl, by decide, by decide, by decide, fnv_prime_prime, by decide⟩

/-! ## Claim C7: the three-way diff classification -/

theorem jsGet_cons {α : Type} (k0 : String) (v : α) (m : List (String × α)) (k : String) :
    jsGet ((k0, v) :: m) k = if k0 = k then some v else jsGet m k := by
  unfold jsGet
  by_cases h : k0 = k
  · subst h
    rw [List.find?_cons_of_pos _ (by simp)]
    simp
  · rw [List.find?_cons_of_neg _ (by simp [h])]
    simp [h]

theorem find?_ext {α : Type} (p q : α → Bool) (l : List α) (h : ∀ a, p a = q a) :
    l.find? p = l.find? q := by
  induction l with
  | nil => rfl
  | cons a t ih =>
    rw [List.find?_cons, List.find?_cons, h a]
    cases q a <;> simp [ih]

theorem jsGet_delete {α : Type} (m : List (String × α)) (k0 k : String) :
    jsGet (jsDelete m k0) k = if k0 = k then none else jsGet m k := by
  unfold jsGet jsDelete
  rw [List.find?_filter]
  by_cases hk : k0 = k
  · subst hk
    rw [if_pos rfl]
    have hnone : m.find? (fun a => !(a.1 == k0) ∧ a.1 == k0) = none := by
      rw [List.find?_eq_none]
      intro x _
      simp
    rw [hnone]
    rfl
  · rw [if_neg hk, find?_ext _ (fun e => e.1 == k) m]
    intro a
    by_cases h1 : a.1 = k
    · simp [h1, Ne.symm hk]
    · simp [h1]

theorem jsGet_mapReplace (k0 : String) (v : DiffVal) :
    ∀ (m : List (String × DiffVal)) (k : String),
      jsGet (m.map (fun e => if e.1 == k0 then (k0, v) else e)) k =
        if k0 = k then (if m.any (fun e => e.1 == k0) then some v else none)
        else jsGet m k
  | [], k => by by_cases hk : k0 = k <;> simp [jsGet, hk]
  | (ke, ve) :: t, k => by
    have ih := jsGet_mapReplace k0 v t k
    by_cases hek : ke = k0
    · subst hek
      have hmap : ((ke, ve) :: t).map (fun e => if e.1 == ke then (ke, v) else e) =
          (ke, v) :: t.map (fun e => if e.1 == ke then (ke, v) else e) := by simp
      rw [hmap, jsGet_cons]
      by_cases hk : ke = k
      · rw [if_pos hk, if_pos hk]
        simp
      · rw [if_neg hk, if_neg hk, ih, if_neg hk, jsGet_cons, if_neg hk]
    · have hmap : ((ke, ve) :: t).map (fun e => if e.1 == k0 then (k0, v) else e) =
          (ke, ve) :: t.map (fun e => if e.1 == k0 then (k0, v) else e) := by
        simp [hek]
      rw [hmap, jsGet_cons, ih, jsGet_cons]
      by_cases hk : k0 = k
      · rw [if_pos hk, if_pos hk]
        have hany : ((ke, ve) :: t).any (fun e => e.1 == k0) =
            t.any (fun e => e.1 == k0) := by simp [hek]
        rw [hany]
        have hke : ke ≠ k := fun hcontra => hek (hcontra.trans hk.symm)
        rw [if_neg hke]
      · rw [if_neg hk, if_neg hk]

theorem jsGet_set (m : List (String × DiffVal)) (k0 : String) (v : DiffVal) (k : String) :
    jsGet (jsSetD m k0 v) k = if k0 = k then some v else jsGet m k := by
  unfold jsSetD
  by_cases hmem : m.any (fun e => e.1 == k0) = true
  · rw [if_pos hmem, jsGet_mapReplace, hmem]
    simp
  · rw [if_neg hmem]
    unfold jsGet
    rw [List.find?_append]
    by_cases hk : k0 = k
    · subst hk
      have hnone : m.find? (fun e => e.1 == k0) = none := by
        rw [List.find?_eq_none]
        intro x hx
        intro hpx
        exact hmem (List.any_eq_true.2 ⟨x, hx, hpx⟩)
      rw [hnone, if_pos rfl]
      simp
    · have hone : ([(k0, v)] : List (String × DiffVal)).find? (fun e => e.1 == k) = none := by
        rw [List.find?_eq_none]
        intro x hx
        simp at hx
        simp [hx, hk]
      rw [hone, if_neg hk]
      simp [jsGet]

theorem jsGet_eq_none_of_not_mem {α : Type} (m : List (String × α)) (k : String)
    (h : k ∉ m.map Prod.fst) : jsGet m k = none := by
  unfold jsGet
  have hnone : m.find? (fun e => e.1 == k) = none := by
    rw [List.find?_eq_none]
    intro x hx hpx
    exact h (by simp at hpx; exact hpx ▸ List.mem_map_of_mem Prod.fst hx)
  rw [hnone]
  rfl

theorem diffStep_get_ne (before : List (String × JLeaf))
    (st : List (String × JLeaf) × List (String × DiffVal) × List (String × JLeaf))
    (k0 : String) (v0 : JLeaf) (k : String) (h : k0 ≠ k) :
    jsGet (diffStep before st (k0, v0)).1 k = jsGet st.1 k ∧
      jsGet (diffStep before st (k0, v0)).2.1 k = jsGet st.2.1 k ∧
      jsGet (diffStep before st (k0, v0)).2.2 k = jsGet st.2.2 k := by
  unfold diffStep
  refine ⟨?_, ?_, ?_⟩ <;>
    · cases hbe : jsGet before (k0, v0).1 with
      | none => simp [hbe, jsGet_delete, h]
      | some bv =>
        simp only [hbe]
        split <;> simp [jsGet_delete, jsGet_set, h]

theorem diffStep_get_self (before : List (String × JLeaf))
    (st : List (String × JLeaf) × List (String × DiffVal) × List (String × JLeaf))
    (k0 : String) (v0 : JLeaf) :
    jsGet (diffStep before st (k0, v0)).1 k0 =
        (match jsGet before k0 with
          | some _ => none
          | none => jsGet st.1 k0) ∧
      jsGet (diffStep before st (k0, v0)).2.1 k0 =
        (match jsGet before k0 with
          | some bv => if bv = v0 then none else some (DiffVal.fromTo bv v0)
          | none => none) ∧
      jsGet (diffStep before st (k0, v0)).2.2 k0 =
        (match jsGet before k0 with
          | some _ => none
          | none => none) := by
  unfold diffStep
  refine ⟨?_, ?_, ?_⟩ <;>
    · cases hbe : jsGet before (k0, v0).1 with
      | none => simp [hbe, jsGet_delete]
      | some bv =>
        simp only [hbe]
        split <;> simp [jsGet_delete, jsGet_set]

theorem diffFold_get (before : List (String × JLeaf)) :
    ∀ (rest : List (String × JLeaf))
      (st : List (String × JLeaf) × List (String × DiffVal) × List (String × JLeaf)),
      (rest.map Prod.fst).Nodup → ∀ k,
      jsGet (rest.foldl (diffStep before) st).1 k =
          (match jsGet rest k, jsGet before k with
            | some _, some _ => none
            | _, _ => jsGet st.1 k) ∧
        jsGet (rest.foldl (diffStep before) st).2.1 k =
          (match jsGet rest k, jsGet before k with
            | some v, some bv => if bv = v then none else some (DiffVal.fromTo bv v)
            | some _, none => none
            | none, _ => jsGet st.2.1 k) ∧
        jsGet (rest.foldl (diffStep before) st).2.2 k =
          (match jsGet rest k with
            | some _ => none
            | none => jsGet st.2.2 k)
  | [], st, _, k => by
    refine ⟨?_, ?_, ?_⟩ <;> cases jsGet before k <;> rfl
  | (k0, v0) :: rest2, st, hnd, k => by
    have hnd2 : (rest2.map Prod.fst).Nodup ∧ k0 ∉ rest2.map Prod.fst := by
      simp only [List.map_cons, List.nodup_cons] at hnd
      exact ⟨hnd.2, hnd.1⟩
    have hfold : ((k0, v0) :: rest2).foldl (diffStep before) st =
        rest2.foldl (diffStep before) (diffStep before st (k0, v0)) := rfl
    have ih := diffFold_get before rest2 (diffStep before st (k0, v0)) hnd2.1 k
    rw [hfold]
    by_cases hk : k0 = k
    · subst hk
      have hrest2 : jsGet rest2 k0 = none := jsGet_eq_none_of_not_mem _ _ hnd2.2
      have hcons : jsGet ((k0, v0) :: rest2) k0 = some v0 := by
        rw [jsGet_cons, if_pos rfl]
      obtain ⟨ih1, ih2, ih3⟩ := ih
      rw [hrest2] at ih1 ih2 ih3
      have hself := diffStep_get_self before st k0 v0
      rw [hcons]
      refine ⟨?_, ?_, ?_⟩
      · rw [ih1, hself.1]
        cases jsGet before k0 <;> rfl
      · rw [ih2, hself.2.1]
        cases jsGet before k0 <;> rfl
      · rw [ih3, hself.2.2]
        cases jsGet before k0 <;> rfl
    · have hcons : jsGet ((k0, v0) :: rest2) k = jsGet rest2 k := by
        rw [jsGet_cons, if_neg hk]
      have hpres := diffStep_get_ne before st k0 v0 k hk
      obtain ⟨ih1, ih2, ih3⟩ := ih
      rw [hpres.1] at ih1
      rw [hpres.2.1] at ih2
      rw [hpres.2.2] at ih3
      rw [hcons]
      exact ⟨ih1, ih2, ih3⟩

theorem deleteFold_nil :
    ∀ (l : List (String × JLeaf)) (c : List (String × DiffVal)),
      (∀ e ∈ c, e.1 ∈ l.map Prod.fst) →
      l.foldl (fun acc kv => jsDelete acc kv.1) c = []
  | [], c, h => by
    cases c with
    | nil => rfl
    | cons e t => exact absurd (h e (by simp)) (by simp)
  | (k0, v0) :: rest, c, h => by
    have hstep : ((k0, v0) :: rest).foldl (fun acc kv => jsDelete acc kv.1) c =
        rest.foldl (fun acc kv => jsDelete acc kv.1) (jsDelete c k0) := rfl
    rw [hstep]
    apply deleteFold_nil rest (jsDelete c k0)
    intro e he
    have hmem : e ∈ c ∧ ¬(e.1 == k0) = true := by
      simpa [jsDelete, List.mem_filter] using he
    have hin := h e hmem.1
    simp only [List.map_cons, List.mem_cons] at hin
    rcases hin with h1 | h1
    · exact absurd (by simp [h1]) hmem.2
    · exact h1

theorem diffFold_nil_before :
    ∀ (rest : List (String × JLeaf)) (a : List (String × JLeaf))
      (c : List (String × DiffVal)),
      rest.foldl (diffStep []) (a, c, ([] : List (String × JLeaf))) =
        (a, rest.foldl (fun acc kv => jsDelete acc kv.1) c, [])
  | [], _, _ => rfl
  | (k0, v0) :: rest2, a, c => by
    have hstep : diffStep [] (a, c, ([] : List (String × JLeaf))) (k0, v0) =
        (a, jsDelete c k0, ([] : List (String × JLeaf))) := rfl
    have hfold : ((k0, v0) :: rest2).foldl (diffStep [])
        (a, c, ([] : List (String × JLeaf))) =
        rest2.foldl (diffStep []) (diffStep [] (a, c, []) (k0, v0)) := rfl
    rw [hfold, hstep, diffFold_nil_before rest2 a (jsDelete c k0)]
    rfl

theorem diffFlatten_nil_before (after : List (String × JLeaf)) :
    diffFlatten [] after = (after, [], []) := by
  unfold diffFlatten
  rw [diffFold_nil_before]
  rw [deleteFold_nil after (after.map (fun kv => (kv.1, DiffVal.leaf kv.2)))]
  intro e he
  obtain ⟨kv, hkv, rfl⟩ := List.mem_map.1 he
  exact List.mem_map_of_mem Prod.fst hkv

/-- Claim C7: for all flat maps, the diff places exactly the
`after`-only keys in `added` (with their `after` values), exactly the
keys present in both with different values in `changed` (as
`from`/`to` pairs), exactly the `before`-only keys in `removed` (with
their `before` values), and keys with identical values nowhere; and
diffing the empty map against any flattened snapshot returns the
flattened snapshot as `added` with empty `changed` and `removed`. -/
theorem c7_theorem (before after : List (String × JLeaf))
    (hnd : (after.map Prod.fst).Nodup) :
    (∀ k, jsGet (diffFlatten before after).1 k =
        (match jsGet before k, jsGet after k with
          | none, some v => some v
          | _, _ => none)) ∧
      (∀ k, jsGet (diffFlatten before after).2.1 k =
        (match jsGet before k, jsGet after k with
          | some bv, some av => if bv = av then none else some (DiffVal.fromTo bv av)
          | _, _ => none)) ∧
      (∀ k, jsGet (diffFlatten before after).2.2 k =
        (match jsGet before k, jsGet after k with
          | some bv, none => some bv
          | _, _ => none)) ∧
      (∀ (parse : String → Option JVal) (fuel : Nat)
          (S : Option (List (String × JVal))),
        diffFlatten [] (flattenObject parse fuel S) =
          (flattenObject parse fuel S, [], [])) := by
  have hbase := diffFold_get before after
    (after, after.map (fun kv => (kv.1, DiffVal.leaf kv.2)), before) hnd
  refine ⟨?_, ?_, ?_, ?_⟩
  · intro k
    have h1 := (hbase k).1
    rw [show (diffFlatten before after) =
      after.foldl (diffStep before)
        (after, after.map (fun kv => (kv.1, DiffVal.leaf kv.2)), before) from rfl]
    rw [h1]
    cases hbe : jsGet before k <;> cases haf : jsGet after k <;> simp [hbe, haf]
  · intro k
    have h2 := (hbase k).2.1
    rw [show (diffFlatten before after) =
      after.foldl (diffStep before)
        (after, after.map (fun kv => (kv.1, DiffVal.leaf kv.2)), before) from rfl]
    rw [h2]
    have hinit : jsGet (after.map (fun kv => (kv.1, DiffVal.leaf kv.2))) k =
        (jsGet after k).map DiffVal.leaf := by
      unfold jsGet
      rw [List.find?_map, find?_ext
        ((fun e : String × DiffVal => e.1 == k) ∘
          (fun kv : String × JLeaf => (kv.1, DiffVal.leaf kv.2)))
        (fun e : String × JLeaf => e.1 == k) after (fun a => rfl)]
      cases after.find? (fun e : String × JLeaf => e.1 == k) <;> rfl
    cases hbe : jsGet before k <;> cases haf : jsGet after k <;>
      simp [hbe, haf, hinit]
  · intro k
    have h3 := (hbase k).2.2
    rw [show (diffFlatten before after) =
      after.foldl (diffStep before)
        (after, after.map (fun kv => (kv.1, DiffVal.leaf kv.2)), before) from rfl]
    rw [h3]
    cases hbe : jsGet before k <;> cases haf : jsGet after k <;> simp [hbe, haf]
  · intro parse fuel S
    exact diffFlatten_nil_before (flattenObject parse fuel S)

/-- Claim C7 (witness): the characterization applied to concrete maps
`beforeEx = [a ↦ 1, b ↦ 2]`, `afterEx = [b ↦ 3, c ↦ 4]`. -/
theorem c7_witness :
    jsGet (diffFlatten beforeEx afterEx).1 keyC = some (JLeaf.num 4) ∧
      jsGet (diffFlatten beforeEx afterEx).2.1 keyB =
        some (DiffVal.fromTo (JLeaf.num 2) (JLeaf.num 3)) ∧
      jsGet (diffFlatten beforeEx afterEx).2.2 keyA = some (JLeaf.num 1) ∧
      diffFlatten [] (flattenObject jsonParseModel 5 (some [(keyA, JVal.num 1)])) =
        (flattenObject jsonParseModel 5 (some [(keyA, JVal.num 1)]), [], []) := by
  have h := c7_theorem beforeEx afterEx (by decide)
  exact ⟨h.1 keyC, h.2.1 keyB, h.2.2.1 keyA, h.2.2.2 jsonParseModel 5 _⟩

/-! ## Claim C10: leafless values vanish under flattening -/

theorem digList_noLeaves (parse : String → Option JVal) :
    ∀ (fuel : Nat) (path : List String) (entries : List (String × JVal))
      (acc : List (String × JLeaf)),
      (∀ e ∈ entries, noLeaves parse fuel (reparseStep parse e.2) = true) →
      digList parse (fuel + 1) path entries acc = acc
  | _, _, [], _, _ => rfl
  | fuel, path, (k, v) :: rest, acc, h => by
    have hv := h (k, v) (by simp)
    have hobj : isObjectVal (reparseStep parse v) = true := by
      cases fuel with
      | zero => exact hv
      | succ g =>
        have := hv
        simp only [noLeaves, Bool.and_eq_true] at this
        exact this.1
    have hfold : digList parse (fuel + 1) path ((k, v) :: rest) acc =
        digList parse (fuel + 1) path rest
          (if isObjectVal (reparseStep parse v)
            then digList parse fuel (path ++ [k]) (entriesOf (reparseStep parse v)) acc
            else jsAssign acc (joinPath (path ++ [k])) (toLeaf (reparseStep parse v))) :=
      rfl
    rw [hfold, if_pos hobj]
    have hinner : digList parse fuel (path ++ [k])
        (entriesOf (reparseStep parse v)) acc = acc := by
      cases fuel with
      | zero => rfl
      | succ g =>
        apply digList_noLeaves parse g
        have := hv
        simp only [noLeaves, Bool.and_eq_true, List.all_eq_true] at this
        intro e he
        exact this.2 e he
    rw [hinner]
    exact digList_noLeaves parse fuel path rest acc (fun e he => h e (by simp [he]))
termination_by fuel _ entries _ _ => (fuel, entries.length)

/-- Claim C10: flattening an absent (`undefined`) record yields the
empty map; a field whose value is (or is a JSON-looking string that
decodes to) an object or array with no scalar leaves below it
contributes no key at all to the flattened map — in particular the
strings of an empty object and of an empty array produce no key — and
the diff of such records reports the field only through absence. -/
theorem c10_theorem :
    (∀ (parse : String → Option JVal) (fuel : Nat),
        flattenObject parse fuel none = []) ∧
      (∀ (parse : String → Option JVal) (fuel : Nat) (path : List String)
          (k : String) (v : JVal) (rest : List (String × JVal))
          (acc : List (String × JLeaf)),
        noLeaves parse fuel (reparseStep parse v) = true →
        digList parse (fuel + 1) path ((k, v) :: rest) acc =
          digList parse (fuel + 1) path rest acc) ∧
      flattenObject jsonParseModel 5
          (some [(fieldF, JVal.str emptyObjText), (fieldG, JVal.str emptyArrText)]) =
        [] ∧
      compareObjects jsonParseModel 5 (some [])
          (some [(fieldF, JVal.str emptyObjText)]) =
        ([], [], []) := by
    refine ⟨fun _ _ => rfl, ?_, by decide, by decide⟩
    intro parse fuel path k v rest acc hv
    have hobj : isObjectVal (reparseStep parse v) = true := by
      cases fuel with
      | zero => exact hv
      | succ g =>
        simp only [noLeaves, Bool.and_eq_true] at hv
        exact hv.1
    have hfold : digList parse (fuel + 1) path ((k, v) :: rest) acc =
        digList parse (fuel + 1) path rest
          (if isObjectVal (reparseStep parse v)
            then digList parse fuel (path ++ [k]) (entriesOf (reparseStep parse v)) acc
            else jsAssign acc (joinPath (path ++ [k])) (toLeaf (reparseStep parse v))) :=
      rfl
    rw [hfold, if_pos hobj]
    have hinner : digList parse fuel (path ++ [k])
        (entriesOf (reparseStep parse v)) acc = acc := by
      cases fuel with
      | zero => rfl
      | succ g =>
        apply digList_noLeaves parse g
        simp only [noLeaves, Bool.and_eq_true, List.all_eq_true] at hv
        intro e he
        exact hv.2 e he
    rw [hinner]

/-- Claim C10 (witness): the drop property applied to a field holding
the empty-object string, followed by an ordinary numeric field. -/
theorem c10_witness :
    digList jsonParseModel (3 + 1) [] [(fieldF, JVal.str emptyObjText),
        (fieldG, JVal.num 5)] [] =
      digList jsonParseModel (3 + 1) [] [(fieldG, JVal.num 5)] [] :=
  c10_theorem.2.1 jsonParseModel 3 [] fieldF (JVal.str emptyObjText)
    [(fieldG, JVal.num 5)] [] (by decide)

/-! ## Helper lemmas about the per-line resolver -/

theorem splitLinesAux_ne_nil (cs acc : List Char) : splitLinesAux cs acc ≠ [] := by
  induction cs, acc using splitLinesAux.induct <;> simp_all [splitLinesAux]

theorem splitLines_ne_nil (s : String) : splitLines s ≠ [] :=
  splitLinesAux_ne_nil s.data []

theorem growLoopAux_eq (sel : Option Nat) (cur : FontStyle) :
    ∀ (n : Nat) (arr : List LineSlot),
      growLoopAux sel cur n arr =
        arr ++ List.replicate n
          (if sel.isNone then { style := some cur, text := "" }
            else cloneSlot arr.getLast?)
  | 0, arr => by simp [growLoopAux]
  | n + 1, arr => by
    cases sel with
    | none =>
      have h1 : growLoopAux none cur (n + 1) arr =
          growLoopAux none cur n (arr ++ [{ style := some cur, text := "" }]) := by
        simp [growLoopAux, jsStrictEqIdxSel]
      rw [h1, growLoopAux_eq none cur n]
      simp [List.replicate_succ, List.append_assoc]
    | some j =>
      have h1 : growLoopAux (some j) cur (n + 1) arr =
          growLoopAux (some j) cur n (arr ++ [cloneSlot arr.getLast?]) := by
        simp [growLoopAux, jsStrictEqIdxSel]
      rw [h1, growLoopAux_eq (some j) cur n]
      have h2 : (arr ++ [cloneSlot arr.getLast?]).getLast? =
          some (cloneSlot arr.getLast?) := List.getLast?_concat _
      rw [h2]
      simp [cloneSlot, List.replicate_succ, List.append_assoc]

theorem shipFillAux_eq (cur : FontStyle) :
    ∀ (n : Nat) (arr : List LineSlot),
      shipFillAux cur n arr =
        arr ++ List.replicate n
          (match arr.getLast? with
            | some sl => sl
            | none => { style := some cur, text := "" })
  | 0, arr => by simp [shipFillAux]
  | n + 1, arr => by
    have h1 : shipFillAux cur (n + 1) arr =
        shipFillAux cur n (arr ++ [match arr.getLast? with
          | some sl => sl
          | none => { style := some cur, text := "" }]) := rfl
    rw [h1, shipFillAux_eq cur n]
    rw [List.getLast?_concat]
    simp [List.replicate_succ, List.append_assoc]

theorem truncFill_spec {α : Type} (prior : List α) (X : α) (n : Nat) :
    ((prior ++ List.replicate (n - prior.length) X).take n).length = n ∧
      ∀ i, i < n →
        ((prior ++ List.replicate (n - prior.length) X).take n)[i]? =
          if i < prior.length then prior[i]? else some X := by
  constructor
  · rw [List.length_take, List.length_append, List.length_replicate]
    omega
  · intro i hi
    rw [List.getElem?_take_of_lt hi]
    by_cases hip : i < prior.length
    · rw [List.getElem?_append_left hip, if_pos hip]
    · rw [List.getElem?_append_right (by omega), if_neg hip, List.getElem?_replicate,
        if_pos (by omega)]

/-! ## Claim C8: synced mode -/

/-- Claim C8: in synced (non-shipping) mode the resolved sequence is the
line list mapped to identical copies of the current style record; hence
its length equals the line count and every slot's non-text fields equal
the current style, with each slot's `text` being its line. -/
theorem c8_theorem (cur : FontStyle) (pt labelText : String) (sel : Option Nat)
    (prior : List LineSlot) (hpt : pt ≠ "shipping") :
    setFontSettingsPerLine cur pt labelText sel true prior =
        (splitLines labelText).map (fun ln => { style := some cur, text := ln }) ∧
      (setFontSettingsPerLine cur pt labelText sel true prior).length =
        (splitLines labelText).length ∧
      ∀ i, i < (splitLines labelText).length →
        (setFontSettingsPerLine cur pt labelText sel true prior)[i]? =
          some { style := some cur, text := (splitLines labelText).getD i "" } := by
  have hn0 : ¬(splitLines labelText).length = 0 := by
    simpa [List.length_eq_zero] using splitLines_ne_nil labelText
  have hmap : setFontSettingsPerLine cur pt labelText sel true prior =
      (splitLines labelText).map (fun ln => { style := some cur, text := ln }) := by
    unfold setFontSettingsPerLine
    rw [if_neg hpt]
    dsimp only
    rw [if_neg hn0, if_pos rfl]
  refine ⟨hmap, ?_, ?_⟩
  · rw [hmap, List.length_map]
  · intro i hi
    rw [hmap, List.getElem?_map, List.getElem?_eq_getElem hi,
      List.getD_eq_getElem?_getD, List.getElem?_eq_getElem hi]
    rfl

/-- Claim C8 (witness): three lines, a selected line and a non-empty
prior array; all three slots become copies of the current style. -/
theorem c8_witness :
    setFontSettingsPerLine styleF ptText textABC (some 1) true
        [{ style := some styleP, text := lineA }] =
      (splitLines textABC).map (fun ln => { style := some styleF, text := ln }) ∧
    (setFontSettingsPerLine styleF ptText textABC (some 1) true
        [{ style := some styleP, text := lineA }]).length =
      (splitLines textABC).length ∧
    (setFontSettingsPerLine styleF ptText textABC (some 1) true
        [{ style := some styleP, text := lineA }])[1]? =
      some { style := some styleF, text := (splitLines textABC).getD 1 "" } := by
  have h := c8_theorem styleF ptText textABC (some 1)
    [{ style := some styleP, text := lineA }] (by decide)
  exact ⟨h.1, h.2.1, h.2.2 1 (by decide)⟩

/-! ## Claim C9: fixed-section (shipping) mode -/

/-- Claim C9: in shipping mode the resolved sequence always has exactly
the two named sections; every slot's `text` is its fixed section name
regardless of the free text (the free text is not even an input); prior
slots beyond the section count are discarded; missing slots are
backfilled by cloning the last existing slot, or the current style when
no slot exists; on top of that, the selected section's slot (and, in
synced mode, every slot) is replaced by a copy of the current style. -/
theorem c9_theorem (cur : FontStyle) (sel : Option Nat) (sync : Bool)
    (prior : List LineSlot) :
    (_setShippingFontSettings cur sel sync prior).length = 2 ∧
      (∀ i, i < 2 →
        ((_setShippingFontSettings cur sel sync prior).getD i emptySlot).text =
          SHIPPING_LINE_NAMES.getD i "") ∧
      (∀ i, i < 2 →
        ((_setShippingFontSettings cur sel sync prior).getD i emptySlot).style =
          if sync = true ∨ i = (if 2 ≤ sel.getD 0 then 0 else sel.getD 0) then some cur
          else if i < prior.length then (prior.getD i emptySlot).style
          else
            match prior.getLast? with
            | some sl => sl.style
            | none => some cur) := by
  have hres : _setShippingFontSettings cur sel sync prior =
      List.zipWith (fun sl nm => { sl with text := nm })
        (if sync = true then
          ((prior ++ List.replicate (2 - prior.length)
            (match prior.getLast? with
              | some sl => sl
              | none => { style := some cur, text := "" })).take 2).map
            (fun _ => { style := some cur, text := "" })
          else ((prior ++ List.replicate (2 - prior.length)
            (match prior.getLast? with
              | some sl => sl
              | none => { style := some cur, text := "" })).take 2).set
            (if 2 ≤ sel.getD 0 then 0 else sel.getD 0)
            { style := some cur, text := "" })
        SHIPPING_LINE_NAMES := by
    unfold _setShippingFontSettings
    dsimp only
    rw [shipFillAux_eq]
    cases sel with
    | none => rfl
    | some j => rfl
  have hT := truncFill_spec prior
    (match prior.getLast? with
      | some sl => sl
      | none => ({ style := some cur, text := "" } : LineSlot)) 2
  set T := (prior ++ List.replicate (2 - prior.length)
    (match prior.getLast? with
      | some sl => sl
      | none => ({ style := some cur, text := "" } : LineSlot))).take 2 with hTdef
  have hTlen : T.length = 2 := hT.1
  have hnmi : ∀ i, i < 2 → SHIPPING_LINE_NAMES[i]? =
      some (SHIPPING_LINE_NAMES.getD i "") := by
    intro i hi
    interval_cases i <;> rfl
  have hAlen : (if sync = true then T.map (fun _ => ({ style := some cur, text := "" } : LineSlot))
      else T.set (if 2 ≤ sel.getD 0 then 0 else sel.getD 0)
        { style := some cur, text := "" }).length = 2 := by
    by_cases hsync : sync = true <;> simp [hsync, hTlen]
  have hstyle : ∀ i, i < 2 → ∃ sl : LineSlot,
      (if sync = true then T.map (fun _ => ({ style := some cur, text := "" } : LineSlot))
        else T.set (if 2 ≤ sel.getD 0 then 0 else sel.getD 0)
          { style := some cur, text := "" })[i]? = some sl ∧
      sl.style = (if sync = true ∨ i = (if 2 ≤ sel.getD 0 then 0 else sel.getD 0)
          then some cur
          else if i < prior.length then (prior.getD i emptySlot).style
          else
            match prior.getLast? with
            | some sl2 => sl2.style
            | none => some cur) := by
    intro i hi
    by_cases hsync : sync = true
    · rw [if_pos hsync]
      refine ⟨{ style := some cur, text := "" }, ?_, ?_⟩
      · rw [List.getElem?_map, List.getElem?_eq_getElem (show i < T.length by omega)]
        rfl
      · rw [if_pos (Or.inl hsync)]
    · rw [if_neg hsync]
      by_cases hisel : i = (if 2 ≤ sel.getD 0 then 0 else sel.getD 0)
      · refine ⟨{ style := some cur, text := "" }, ?_, ?_⟩
        · rw [← hisel]
          exact List.getElem?_set_self (by omega)
        · rw [if_pos (Or.inr hisel)]
      · have hTi := hT.2 i hi
        by_cases hip : i < prior.length
        · rw [if_pos hip] at hTi
          refine ⟨prior.get ⟨i, hip⟩, ?_, ?_⟩
          · rw [List.getElem?_set_ne (fun h => hisel h.symm), hTi]
            exact List.getElem?_eq_getElem hip
          · rw [if_neg (not_or.2 ⟨hsync, hisel⟩), if_pos hip,
              List.getD_eq_getElem?_getD, List.getElem?_eq_getElem hip]
            rfl
        · rw [if_neg hip] at hTi
          cases hBl : prior.getLast? with
          | some sl =>
            rw [hBl] at hTi
            refine ⟨sl, ?_, ?_⟩
            · rw [List.getElem?_set_ne (fun h => hisel h.symm)]
              exact hTi
            · rw [if_neg (not_or.2 ⟨hsync, hisel⟩), if_neg hip]
          | none =>
            rw [hBl] at hTi
            refine ⟨{ style := some cur, text := "" }, ?_, ?_⟩
            · rw [List.getElem?_set_ne (fun h => hisel h.symm)]
              exact hTi
            · rw [if_neg (not_or.2 ⟨hsync, hisel⟩), if_neg hip]
  refine ⟨?_, ?_, ?_⟩
  · rw [hres, List.length_zipWith, hAlen]
    rfl
  · intro i hi
    obtain ⟨sl, hsl, _⟩ := hstyle i hi
    rw [hres, List.getD_eq_getElem?_getD, List.getElem?_zipWith, hsl, hnmi i hi]
    rfl
  · intro i hi
    obtain ⟨sl, hsl, hstyleEq⟩ := hstyle i hi
    rw [hres, List.getD_eq_getElem?_getD, List.getElem?_zipWith, hsl, hnmi i hi]
    exact hstyleEq

/-- Claim C9 (witness): shipping mode with one stored slot, section 1
selected, not synced: two sections with forced names; slot 0 keeps the
stored style, slot 1 (selected) is the current style. -/
theorem c9_witness :
    (_setShippingFontSettings styleF (some 1) false
        [{ style := some styleP, text := lineA }]).length = 2 ∧
      ((_setShippingFontSettings styleF (some 1) false
          [{ style := some styleP, text := lineA }]).getD 0 emptySlot).text =
        SHIPPING_LINE_NAMES.getD 0 "" ∧
      ((_setShippingFontSettings styleF (some 1) false
          [{ style := some styleP, text := lineA }]).getD 1 emptySlot).style =
        (if (false : Bool) = true ∨ 1 = (if 2 ≤ (some 1 : Option Nat).getD 0 then 0
            else (some 1 : Option Nat).getD 0) then some styleF
          else if 1 < ([{ style := some styleP, text := lineA }] : List LineSlot).length
            then (([{ style := some styleP, text := lineA }] : List LineSlot).getD 1
              emptySlot).style
          else
            match ([{ style := some styleP, text := lineA }] : List LineSlot).getLast? with
            | some sl => sl.style
            | none => some styleF) := by
  have h := c9_theorem styleF (some 1) false [{ style := some styleP, text := lineA }]
  exact ⟨h.1, h.2.1 0 (by decide), h.2.2 1 (by decide)⟩

/-! ## Claim C4: independent mode -/

/-- Claim C4 (counterexample): the claim says that when the text grows,
each appended slot copies the immediately preceding slot's style unless
it is the selected line or has no predecessor.  With one stored slot of
style `styleP`, three lines, no line selected and current style
`styleF`, slot 1 is appended with the current style (because the source
gives every appended slot the current style when `selectedLine` is
`null`), so its style differs from its predecessor's style: the claimed
inheritance fails. -/
theorem c4_counterexample :
    ((setFontSettingsPerLine styleF ptText textABC none false
        [{ style := some styleP, text := lineA }]).getD 1 emptySlot).style ≠
      ((setFontSettingsPerLine styleF ptText textABC none false
        [{ style := some styleP, text := lineA }]).getD 0 emptySlot).style ∧
      ((setFontSettingsPerLine styleF ptText textABC none false
        [{ style := some styleP, text := lineA }]).getD 0 emptySlot).style =
        some styleP ∧
      ((setFontSettingsPerLine styleF ptText textABC none false
        [{ style := some styleP, text := lineA }]).getD 1 emptySlot).style =
        some styleF := by
  decide

/-- Claim C4 (amended): in independent (non-synced, non-shipping) mode
the resolved sequence has one slot per line; the selected line's slot
(when within range) is fully replaced by the current style controls;
every other pre-existing slot keeps its stored style with only its text
updated (shrinking truncates from the end); and every appended slot
receives the current style when no line is selected, and otherwise a
copy of the style the preceding slot had at append time — that is, the
last stored slot's style (an empty, field-less record when no slot
exists) — before the selected slot's replacement is applied. -/
theorem c4_amended (cur : FontStyle) (pt labelText : String) (sel : Option Nat)
    (prior : List LineSlot) (hpt : pt ≠ "shipping") :
    (setFontSettingsPerLine cur pt labelText sel false prior).length =
        (splitLines labelText).length ∧
      ∀ i, i < (splitLines labelText).length →
        (setFontSettingsPerLine cur pt labelText sel false prior)[i]? =
          some { style := indepStyle cur sel prior i
                 text := (splitLines labelText).getD i "" } := by
  have hn0 : ¬(splitLines labelText).length = 0 := by
    simpa [List.length_eq_zero] using splitLines_ne_nil labelText
  have hLi : ∀ i, i < (splitLines labelText).length →
      (splitLines labelText)[i]? = some ((splitLines labelText).getD i "") := by
    intro i hi
    rw [List.getElem?_eq_getElem hi, List.getD_eq_getElem?_getD,
      List.getElem?_eq_getElem hi]
    rfl
  have hPi : ∀ i, i < prior.length → prior[i]? = some (prior.getD i emptySlot) := by
    intro i hip
    rw [List.getElem?_eq_getElem hip, List.getD_eq_getElem?_getD,
      List.getElem?_eq_getElem hip]
    rfl
  cases sel with
  | none =>
    have hres : setFontSettingsPerLine cur pt labelText none false prior =
        List.zipWith (fun (sl : LineSlot) (ln : String) => { sl with text := ln })
          ((prior ++ List.replicate ((splitLines labelText).length - prior.length)
            ({ style := some cur, text := "" } : LineSlot)).take
            (splitLines labelText).length)
          (splitLines labelText) := by
      unfold setFontSettingsPerLine growLoop
      rw [if_neg hpt]
      dsimp only
      rw [if_neg hn0, if_neg Bool.false_ne_true, growLoopAux_eq]
      rfl
    have hT := truncFill_spec prior ({ style := some cur, text := "" } : LineSlot)
      (splitLines labelText).length
    constructor
    · rw [hres, List.length_zipWith, hT.1]
      exact Nat.min_self _
    · intro i hi
      unfold indepStyle
      rw [hres, List.getElem?_zipWith, hT.2 i hi, hLi i hi]
      by_cases hip : i < prior.length
      · rw [hPi i hip]
        simp [hip]
      · simp [hip]
  | some j =>
    have hres : setFontSettingsPerLine cur pt labelText (some j) false prior =
        List.zipWith (fun (sl : LineSlot) (ln : String) => { sl with text := ln })
          (if j < ((prior ++ List.replicate
              ((splitLines labelText).length - prior.length)
              (cloneSlot prior.getLast?)).take (splitLines labelText).length).length
            then ((prior ++ List.replicate
              ((splitLines labelText).length - prior.length)
              (cloneSlot prior.getLast?)).take (splitLines labelText).length).set j
              { style := some cur, text := "" }
            else (prior ++ List.replicate
              ((splitLines labelText).length - prior.length)
              (cloneSlot prior.getLast?)).take (splitLines labelText).length)
          (splitLines labelText) := by
      unfold setFontSettingsPerLine growLoop
      rw [if_neg hpt]
      dsimp only
      rw [if_neg hn0, if_neg Bool.false_ne_true, growLoopAux_eq]
      rfl
    have hT := truncFill_spec prior (cloneSlot prior.getLast?)
      (splitLines labelText).length
    rw [hT.1] at hres
    constructor
    · rw [hres, List.length_zipWith]
      by_cases hj : j < (splitLines labelText).length
      · rw [if_pos hj, List.length_set, hT.1]
        exact Nat.min_self _
      · rw [if_neg hj, hT.1]
        exact Nat.min_self _
    · intro i hi
      unfold indepStyle
      rw [hres, List.getElem?_zipWith, hLi i hi]
      by_cases hj : j < (splitLines labelText).length
      · rw [if_pos hj]
        by_cases hij : j = i
        · subst hij
          rw [List.getElem?_set_self (show j < _ from by rw [hT.1]; exact hi)]
          simp
        · rw [List.getElem?_set_ne hij, hT.2 i hi]
          by_cases hip : i < prior.length
          · rw [hPi i hip]
            simp [hip, hij]
          · simp [hip, hij]
      · rw [if_neg hj, hT.2 i hi]
        have hij : ¬j = i := by omega
        by_cases hip : i < prior.length
        · rw [hPi i hip]
          simp [hip, hij]
        · simp [hip, hij]

/-- Claim C4 (witness): one stored slot of style `styleP`, three lines,
line 1 selected, current style `styleF`: three slots; slot 1 is the
current style; slot 2 (appended, not selected) carries the last stored
slot's style. -/
theorem c4_witness :
    (setFontSettingsPerLine styleF ptText textABC (some 1) false
        [{ style := some styleP, text := lineA }]).length =
      (splitLines textABC).length ∧
    (setFontSettingsPerLine styleF ptText textABC (some 1) false
        [{ style := some styleP, text := lineA }])[1]? =
      some { style := indepStyle styleF (some 1) [{ style := some styleP, text := lineA }] 1
             text := (splitLines textABC).getD 1 "" } ∧
    (setFontSettingsPerLine styleF ptText textABC (some 1) false
        [{ style := some styleP, text := lineA }])[2]? =
      some { style := indepStyle styleF (some 1) [{ style := some styleP, text := lineA }] 2
             text := (splitLines textABC).getD 2 "" } := by
  have h := c4_amended styleF ptText textABC (some 1)
    [{ style := some styleP, text := lineA }] (by decide)
  exact ⟨h.1, h.2 1 (by decide), h.2 2 (by decide)⟩

end LabelDesigner
